import Mathlib

/-!
Verification development for the computational core of geospade/operation.py:
the scan-line polygon rasteriser rasterise_polygon, the affine geotransform
constructor construct_geotransform, and the index/world coordinate maps
xy2ij and ij2xy. Real-valued float quantities of the source are modelled as
exact rationals, except for the trigonometric constructor, modelled over the
reals. Fallible steps of the source, including crashes and loops whose exit
test never fires, are modelled with Option; walks carry explicit fuel.
-/

namespace Geospade

/-- Python's built-in round on an exact rational value: round half to even
(banker's rounding). The source applies round to float quantities which, in
every scenario below, are exact dyadic rationals, so this is the exact
semantics of those calls. -/
def pyround (q : ℚ) : ℤ :=
  if q - ⌊q⌋ < 1/2 then ⌊q⌋
  else if 1/2 < q - ⌊q⌋ then ⌊q⌋ + 1
  else if ⌊q⌋ % 2 = 0 then ⌊q⌋ else ⌊q⌋ + 1

/-- The raster of the source: a row-major grid of byte cells (np.uint8 cells,
modelled as ℕ with values 0 and 1). -/
abbrev Grid := List (List ℕ)

/-- numpy index semantics on an axis of length n: an index with 0 ≤ i < n is
taken directly, one with -n ≤ i < 0 wraps to i + n, and anything else raises
IndexError, modelled as none. -/
def npIndex (n : ℕ) (i : ℤ) : Option ℕ :=
  if 0 ≤ i ∧ i < (n : ℤ) then some i.toNat
  else if -(n : ℤ) ≤ i ∧ i < 0 then some (i + n).toNat
  else none

/-- The write raster[i, j] = 1 of line 86: a 1 is stored at row i, column j;
an out-of-range index raises IndexError in numpy, modelled by none. -/
def setCell (g : Grid) (i j : ℤ) : Option Grid :=
  match npIndex g.length i with
  | none => none
  | some i0 =>
    match npIndex (g.getD i0 []).length j with
    | none => none
    | some j0 => some (g.set i0 ((g.getD i0 []).set j0 1))

/-- Reading a cell of the raster at row i, column j, with 0 (the background
value) outside the grid. -/
def cellAt (g : Grid) (i j : ℕ) : ℕ := (g.getD i []).getD j 0

/-- The inner while-loop of the contour pass, lines 77-87 of the source:
starting from the lower endpoint of the edge, flag the cell hit at the current
scan line and step y upward by sres, until abs (y - y_end - sres) < eps. That
test is the only exit of the loop in the source; fuel counts the iterations
still allowed, and none is returned when fuel runs out (a walk whose exit test
never becomes true) or when the flag write lands outside the raster. -/
def walkEdge (sres eps : ℚ) (k : Option ℚ) (y_start x_start y_end y_max x_min : ℚ)
    (b : ℕ) : ℕ → ℚ → Grid → Option Grid
  | 0, _, _ => none
  | fuel + 1, y, g =>
    if |y - y_end - sres| < eps then some g
    else
      let x : ℚ :=
        match k with
        | some k0 => (y - y_start) / k0 + x_start
        | none => x_start
      let i : ℤ := pyround (|y - y_max| / sres) + b
      let j : ℤ := pyround (|x - x_min| / sres) + b
      match setCell g i j with
      | none => none
      | some g2 => walkEdge sres eps k y_start x_start y_end y_max x_min b fuel (y + sres) g2

/-- One iteration of the contour loop, lines 53-87, for the edge from p to q:
a horizontal edge is skipped, otherwise the slope k is computed (none encodes
the Python None marking a vertical edge) and the walk starts at the lower
endpoint of the edge, exactly as lines 66-75 select it. -/
def flagEdge (fuel : ℕ) (sres eps : ℚ) (b : ℕ) (x_min y_max : ℚ)
    (p q : ℚ × ℚ) (g : Grid) : Option Grid :=
  let x_diff := q.1 - p.1
  let y_diff := q.2 - p.2
  if y_diff = 0 then some g
  else
    let k : Option ℚ := if x_diff ≠ 0 then some (y_diff / x_diff) else none
    if p.2 < q.2 then
      walkEdge sres eps k p.2 p.1 q.2 y_max x_min b fuel p.2 g
    else
      walkEdge sres eps k q.2 q.1 p.2 y_max x_min b fuel q.2 g

/-- The contour pass: the source iterates idx over range(1, len(xs)) taking at
each step the edge from points[idx - 1] to points[idx], which is the monadic
fold of flagEdge over the list of consecutive vertex pairs. -/
def contourAll (fuel : ℕ) (sres eps : ℚ) (b : ℕ) (x_min y_max : ℚ)
    (points : List (ℚ × ℚ)) (g : Grid) : Option Grid :=
  (points.zip points.tail).foldlM (fun h e => flagEdge fuel sres eps b x_min y_max e.1 e.2 h) g

/-- The column scan of the fill pass, lines 94-98: the inside flag flips at
every nonzero cell (the source toggles it with the bitwise complement, whose
truthiness alternates), and while inside the current cell is set to 1. -/
def fillRowGo : Bool → List ℕ → List ℕ
  | _, [] => []
  | inside, c :: cs =>
    let inside2 := if c ≠ 0 then !inside else inside
    (if inside2 then 1 else c) :: fillRowGo inside2 cs

/-- The fill of one row, lines 90-98: a row whose cell sum is below 2 is
skipped unchanged, any other row is scanned left to right. -/
def fillRow (row : List ℕ) : List ℕ :=
  if row.sum < 2 then row else fillRowGo false row

/-- The fill pass over all rows of the raster. -/
def fillGrid (g : Grid) : Grid := g.map fillRow

/-- EPS of line 36 of the source. -/
def EPS : ℚ := 1 / 1000000

/-- Minimum of a nonempty coordinate list, as min on line 41/43. -/
def listMin (x : ℚ) (xs : List ℚ) : ℚ := xs.foldl min x

/-- Maximum of a nonempty coordinate list, as max on line 42/44. -/
def listMax (x : ℚ) (xs : List ℚ) : ℚ := xs.foldl max x

/-- The x coordinates of the vertex list (line 39). -/
def xsOf (points : List (ℚ × ℚ)) : List ℚ := points.map Prod.fst

/-- The y coordinates of the vertex list (line 39). -/
def ysOf (points : List (ℚ × ℚ)) : List ℚ := points.map Prod.snd

/-- x_min of line 41 (0 on the empty list, on which the source crashes before
reaching this point). -/
def xMin : List (ℚ × ℚ) → ℚ
  | [] => 0
  | p :: rest => listMin p.1 (xsOf rest)

/-- x_max of line 42. -/
def xMax : List (ℚ × ℚ) → ℚ
  | [] => 0
  | p :: rest => listMax p.1 (xsOf rest)

/-- y_min of line 43. -/
def yMin : List (ℚ × ℚ) → ℚ
  | [] => 0
  | p :: rest => listMin p.2 (ysOf rest)

/-- y_max of line 44. -/
def yMax : List (ℚ × ℚ) → ℚ
  | [] => 0
  | p :: rest => listMax p.2 (ysOf rest)

/-- Row count of the allocated raster, line 47:
round((y_max - y_min)/sres) + 1 + 2*buffer. -/
def nRows (points : List (ℚ × ℚ)) (sres : ℚ) (b : ℕ) : ℤ :=
  pyround ((yMax points - yMin points) / sres) + 1 + 2 * b

/-- Column count of the allocated raster, line 48. -/
def nCols (points : List (ℚ × ℚ)) (sres : ℚ) (b : ℕ) : ℤ :=
  pyround ((xMax points - xMin points) / sres) + 1 + 2 * b

/-- Allocation of the zero raster (line 50) followed by the contour pass
(lines 53-87). none models a crash of the source: unpacking an empty vertex
list on line 39, ZeroDivisionError when sres = 0, np.zeros on a negative
dimension, an IndexError inside a walk, or a walk whose exit test never
becomes true. -/
def contour_grid (points : List (ℚ × ℚ)) (sres : ℚ) (b : ℕ) (fuel : ℕ) : Option Grid :=
  match points with
  | [] => none
  | _ :: _ =>
    if sres = 0 then none
    else
      let r := nRows points sres b
      let c := nCols points sres b
      if r < 0 ∨ c < 0 then none
      else
        contourAll fuel sres EPS b (xMin points) (yMax points) points
          (List.replicate r.toNat (List.replicate c.toNat 0))

/-- Contour pass followed by the fill pass: the raster of rasterise_polygon
before the buffer post-processing of lines 100-103. -/
def rasterise_uncropped (points : List (ℚ × ℚ)) (sres : ℚ) (b : ℕ) (fuel : ℕ) :
    Option Grid :=
  (contour_grid points sres b fuel).map fillGrid

/-- Cell lookup for the erosion, with every out-of-range neighbour read as 1:
cv2.erode pads with the maximal border value, so the border alone never erodes
a cell. -/
def cellD (g : Grid) (i j : ℤ) : ℕ :=
  if 0 ≤ i ∧ 0 ≤ j then (g.getD i.toNat []).getD j.toNat 1 else 1

/-- The nine offsets of the 3x3 all-ones kernel of line 101. -/
def nbOffsets : List (ℤ × ℤ) :=
  [(-1, -1), (-1, 0), (-1, 1), (0, -1), (0, 0), (0, 1), (1, -1), (1, 0), (1, 1)]

/-- One binary erosion with the 3x3 all-ones kernel (cv2.erode, line 102):
a cell keeps a 1 exactly when its whole neighbourhood holds 1. -/
def erodeOnce (g : Grid) : Grid :=
  g.mapIdx fun i row => row.mapIdx fun j _ =>
    nbOffsets.foldl (fun m d => min m (cellD g ((i : ℤ) + d.1) ((j : ℤ) + d.2))) 1

/-- The crop raster[buffer:-buffer, buffer:-buffer] of line 103. -/
def cropGrid (b : ℕ) (g : Grid) : Grid :=
  ((g.drop b).take (g.length - 2 * b)).map fun row => (row.drop b).take (row.length - 2 * b)

/-- rasterise_polygon of the source, lines 12-105: the absolute value of
buffer is taken at entry (line 37), the raster is allocated, contoured and
filled, and for a nonzero buffer it is eroded buffer times and its padding
border cropped away. fuel bounds the iterations of each edge walk. -/
def rasterise_polygon (points : List (ℚ × ℚ)) (sres : ℚ) (buffer : ℤ) (fuel : ℕ) :
    Option Grid :=
  let b := buffer.natAbs
  (rasterise_uncropped points sres b fuel).map fun g =>
    if b = 0 then g else cropGrid b (Nat.iterate erodeOnce b g)

/-- The failure ij2xy raises for an unknown pixel origin (the raise on line
446 of the source; the spec names this failure UnknownAnchor). -/
inductive GeoError where
  | unknownAnchor
deriving DecidableEq

/-- The six GDAL geotransform parameters gt[0] .. gt[5]. -/
structure GeoTransform where
  gt0 : ℚ
  gt1 : ℚ
  gt2 : ℚ
  gt3 : ℚ
  gt4 : ℚ
  gt5 : ℚ
deriving DecidableEq

/-- xy2ij, lines 380-405 of the source: world coordinates to pixel indexes
through the closed-form inverse of the affine geotransform, rounded to
integers. -/
def xy2ij (x y : ℚ) (gt : GeoTransform) : ℤ × ℤ :=
  (pyround (-1 * (gt.gt2 * gt.gt3 - gt.gt0 * gt.gt5 + gt.gt5 * x - gt.gt2 * y) /
      (gt.gt2 * gt.gt4 - gt.gt1 * gt.gt5)),
   pyround (-1 * (-1 * gt.gt1 * gt.gt3 + gt.gt0 * gt.gt4 - gt.gt4 * x + gt.gt1 * y) /
      (gt.gt2 * gt.gt4 - gt.gt1 * gt.gt5)))

/-- ij2xy, lines 408-454 of the source: pixel indexes to world coordinates;
the pixel origin selects a sub-pixel shift, and an unknown origin raises on
line 446, never reaching the dead fallback assignment below the raise. -/
def ij2xy (i j : ℚ) (gt : GeoTransform) (origin : String) : Except GeoError (ℚ × ℚ) :=
  let shift : Option (ℚ × ℚ) :=
    if origin = "ul" then some (0, 0)
    else if origin = "ur" then some (1, 0)
    else if origin = "lr" then some (1, 1)
    else if origin = "ll" then some (0, 1)
    else if origin = "c" then some (1/2, 1/2)
    else none
  match shift with
  | none => Except.error GeoError.unknownAnchor
  | some s =>
    Except.ok (gt.gt0 + (i + s.1) * gt.gt1 + (j + s.2) * gt.gt2,
               gt.gt3 + (i + s.1) * gt.gt4 + (j + s.2) * gt.gt5)

/-- construct_geotransform, lines 143-176 of the source, over the reals:
alpha is round(math.radians(rot)) when deg is true, so the radian value is
rounded to a whole number of radians, and rot unrounded otherwise; the six
parameters are assembled from cos and sin of alpha scaled by the pixel sizes.
Mathlib round sends half-integers up where Python sends them to even, a case
no nonzero rational degree angle can produce here, since rot * pi / 180 is
then irrational. -/
noncomputable def construct_geotransform (origin : ℝ × ℝ) (rot : ℝ) (px : ℝ × ℝ)
    (deg : Bool) : ℝ × ℝ × ℝ × ℝ × ℝ × ℝ :=
  let alpha : ℝ := if deg then ((round (rot * Real.pi / 180) : ℤ) : ℝ) else rot
  (origin.1, Real.cos alpha * px.1, -Real.sin alpha * px.1,
   origin.2, Real.sin alpha * px.2, Real.cos alpha * px.2)

/-- The construction as claim C4 words it: the angle is rounded to the nearest
integer degree first and converted to radians afterwards. Stated from the
claim, to be compared with construct_geotransform above. -/
noncomputable def construct_geotransform_claimed (origin : ℝ × ℝ) (rot : ℝ) (px : ℝ × ℝ)
    (deg : Bool) : ℝ × ℝ × ℝ × ℝ × ℝ × ℝ :=
  let alpha : ℝ := if deg then ((round rot : ℤ) : ℝ) * Real.pi / 180 else rot
  (origin.1, Real.cos alpha * px.1, -Real.sin alpha * px.1,
   origin.2, Real.sin alpha * px.2, Real.cos alpha * px.2)

/-! Helper lemmas about the rounding model and the grid primitives. -/

/-- pyround is the identity on integers. -/
theorem pyround_intCast (n : ℤ) : pyround (n : ℚ) = n := by
  unfold pyround
  rw [Int.floor_intCast]
  norm_num

/-- pyround of a nonnegative rational is nonnegative. -/
theorem pyround_nonneg {q : ℚ} (h : 0 ≤ q) : 0 ≤ pyround q := by
  have h0 : 0 ≤ ⌊q⌋ := Int.floor_nonneg.mpr h
  unfold pyround
  split_ifs <;> omega

/-- A successful numpy index lies within the axis. -/
theorem npIndex_lt {n : ℕ} {i : ℤ} {m : ℕ} (h : npIndex n i = some m) : m < n := by
  unfold npIndex at h
  split_ifs at h with h1 h2
  · obtain ⟨ha, hb⟩ := h1
    cases h
    omega
  · obtain ⟨ha, hb⟩ := h2
    cases h
    omega

/-- The row read at a successful index belongs to the grid. -/
theorem getD_mem_of_lt {g : Grid} {i0 : ℕ} (h : i0 < g.length) : g.getD i0 [] ∈ g := by
  rw [List.getD_eq_getElem _ _ h]
  exact List.getElem_mem h

/-- setCell preserves any cell-wise and shape-wise grid property that survives
a single write of the value 1. -/
theorem setCell_dims {r c : ℕ} {g g2 : Grid} {i j : ℤ}
    (hlen : g.length = r) (hrow : ∀ row ∈ g, row.length = c)
    (h : setCell g i j = some g2) :
    g2.length = r ∧ ∀ row ∈ g2, row.length = c := by
  unfold setCell at h
  split at h
  · cases h
  · rename_i i0 hi
    split at h
    · cases h
    · rename_i j0 hj
      cases h
      refine ⟨by rw [List.length_set, hlen], ?_⟩
      intro row hr
      rcases List.mem_or_eq_of_mem_set hr with hmem | heq
      · exact hrow row hmem
      · subst heq
        rw [List.length_set]
        exact hrow _ (getD_mem_of_lt (npIndex_lt hi))

/-- setCell writes only the value 1, so cells stay in the set 0, 1. -/
theorem setCell_cells01 {g g2 : Grid} {i j : ℤ}
    (hg : ∀ row ∈ g, ∀ v ∈ row, v = 0 ∨ v = 1)
    (h : setCell g i j = some g2) :
    ∀ row ∈ g2, ∀ v ∈ row, v = 0 ∨ v = 1 := by
  unfold setCell at h
  split at h
  · cases h
  · rename_i i0 hi
    split at h
    · cases h
    · rename_i j0 hj
      cases h
      intro row hr v hv
      rcases List.mem_or_eq_of_mem_set hr with hmem | heq
      · exact hg row hmem v hv
      · subst heq
        rcases List.mem_or_eq_of_mem_set hv with hvmem | hveq
        · exact hg _ (getD_mem_of_lt (npIndex_lt hi)) v hvmem
        · right; exact hveq

/-- A property preserved by each step of an Option-valued left fold is
preserved by the whole fold. -/
theorem foldlM_option_preserve {α : Type} {P : Grid → Prop}
    {f : Grid → α → Option Grid}
    (hf : ∀ g e g2, P g → f g e = some g2 → P g2) :
    ∀ (l : List α) (g g2 : Grid), P g → List.foldlM f g l = some g2 → P g2 := by
  intro l
  induction l with
  | nil =>
    intro g g2 hg h
    simp only [List.foldlM_nil] at h
    cases h
    exact hg
  | cons e l ih =>
    intro g g2 hg h
    rw [List.foldlM_cons] at h
    cases hfe : f g e with
    | none => rw [hfe] at h; simp at h
    | some g1 =>
      rw [hfe] at h
      simp only [Option.bind_eq_bind, Option.some_bind] at h
      exact ih g1 g2 (hf g e g1 hg hfe) h

/-- The edge walk preserves any property preserved by setCell. -/
theorem walkEdge_preserve {P : Grid → Prop}
    (hset : ∀ (g : Grid) (i j : ℤ) (g2 : Grid), P g → setCell g i j = some g2 → P g2)
    (sres eps : ℚ) (k : Option ℚ) (ys xs ye ym xm : ℚ) (b : ℕ) :
    ∀ (fuel : ℕ) (y : ℚ) (g g2 : Grid), P g →
      walkEdge sres eps k ys xs ye ym xm b fuel y g = some g2 → P g2 := by
  intro fuel
  induction fuel with
  | zero => intro y g g2 _ h; simp [walkEdge] at h
  | succ fuel ih =>
    intro y g g2 hg h
    simp only [walkEdge] at h
    split at h
    · cases h; exact hg
    · split at h
      · cases h
      · rename_i g1 heq
        exact ih (y + sres) g1 g2 (hset _ _ _ _ hg heq) h

/-- The per-edge contour step preserves any property preserved by setCell. -/
theorem flagEdge_preserve {P : Grid → Prop}
    (hset : ∀ (g : Grid) (i j : ℤ) (g2 : Grid), P g → setCell g i j = some g2 → P g2)
    (fuel : ℕ) (sres eps : ℚ) (b : ℕ) (xm ym : ℚ) (p q : ℚ × ℚ)
    (g g2 : Grid) (hg : P g)
    (h : flagEdge fuel sres eps b xm ym p q g = some g2) : P g2 := by
  simp only [flagEdge] at h
  split at h
  · cases h; exact hg
  · split at h
    · exact walkEdge_preserve hset _ _ _ _ _ _ _ _ _ _ _ _ _ hg h
    · exact walkEdge_preserve hset _ _ _ _ _ _ _ _ _ _ _ _ _ hg h

/-- The whole contour pass preserves any property preserved by setCell. -/
theorem contourAll_preserve {P : Grid → Prop}
    (hset : ∀ (g : Grid) (i j : ℤ) (g2 : Grid), P g → setCell g i j = some g2 → P g2)
    (fuel : ℕ) (sres eps : ℚ) (b : ℕ) (xm ym : ℚ) (points : List (ℚ × ℚ))
    (g g2 : Grid) (hg : P g)
    (h : contourAll fuel sres eps b xm ym points g = some g2) : P g2 := by
  unfold contourAll at h
  exact foldlM_option_preserve
    (fun g e g2 hg he => flagEdge_preserve hset fuel sres eps b xm ym e.1 e.2 g g2 hg he)
    _ g g2 hg h

/-- The row fill scan preserves the row length. -/
theorem fillRowGo_length (inside : Bool) (row : List ℕ) :
    (fillRowGo inside row).length = row.length := by
  induction row generalizing inside with
  | nil => rfl
  | cons c cs ih => simp [fillRowGo, ih]

/-- The row fill preserves the row length. -/
theorem fillRow_length (row : List ℕ) : (fillRow row).length = row.length := by
  unfold fillRow
  split
  · rfl
  · exact fillRowGo_length false row

/-- The row fill scan keeps every cell in the set 0, 1. -/
theorem fillRowGo_cells01 (inside : Bool) (row : List ℕ)
    (h : ∀ v ∈ row, v = 0 ∨ v = 1) :
    ∀ v ∈ fillRowGo inside row, v = 0 ∨ v = 1 := by
  induction row generalizing inside with
  | nil => intro v hv; simp [fillRowGo] at hv
  | cons c cs ih =>
    intro v hv
    simp only [fillRowGo] at hv
    rcases List.mem_cons.mp hv with hveq | hvmem
    · subst hveq
      have hc := h c (List.mem_cons_self c cs)
      by_cases hb : (if c ≠ 0 then !inside else inside) = true
      · rw [if_pos hb]; right; rfl
      · rw [if_neg hb]; exact hc
    · exact ih _ (fun v hv => h v (List.mem_cons_of_mem c hv)) v hvmem

/-- The row fill scan never clears a 1. -/
theorem fillRowGo_keeps_one (row : List ℕ) (inside : Bool) (n : ℕ)
    (h : row.getD n 0 = 1) : (fillRowGo inside row).getD n 0 = 1 := by
  induction row generalizing inside n with
  | nil => simp [List.getD] at h
  | cons c cs ih =>
    cases n with
    | zero =>
      rw [List.getD_cons_zero] at h
      subst h
      simp [fillRowGo]
    | succ n =>
      rw [List.getD_cons_succ] at h
      simp only [fillRowGo, List.getD_cons_succ]
      exact ih _ n h

/-- The row fill never clears a 1. -/
theorem fillRow_keeps_one (row : List ℕ) (n : ℕ)
    (h : row.getD n 0 = 1) : (fillRow row).getD n 0 = 1 := by
  unfold fillRow
  split
  · exact h
  · exact fillRowGo_keeps_one row false n h

/-- The fill pass preserves the number of rows. -/
theorem fillGrid_length (g : Grid) : (fillGrid g).length = g.length :=
  List.length_map g fillRow

/-- The fill pass keeps every cell in the set 0, 1. -/
theorem fillGrid_cells01 {g : Grid}
    (hg : ∀ row ∈ g, ∀ v ∈ row, v = 0 ∨ v = 1) :
    ∀ row ∈ fillGrid g, ∀ v ∈ row, v = 0 ∨ v = 1 := by
  intro row hr
  rcases List.mem_map.mp hr with ⟨row0, hmem, heq⟩
  subst heq
  unfold fillRow
  split
  · exact hg row0 hmem
  · exact fillRowGo_cells01 false row0 (hg row0 hmem)

/-- Reading a row of the filled grid is filling the row read, also outside
the grid, where both sides give the empty row. -/
theorem fillGrid_getD (g : Grid) (i : ℕ) :
    (fillGrid g).getD i [] = fillRow (g.getD i []) := by
  rw [fillGrid, List.getD_eq_getD_get? (List.map fillRow g), List.get?_map,
    List.getD_eq_getD_get? g]
  cases hg : g.get? i
  · simp [fillRow]
  · simp

/-- The fill pass never clears a cell holding 1. -/
theorem fillGrid_keeps_one (g : Grid) (i j : ℕ) (h : cellAt g i j = 1) :
    cellAt (fillGrid g) i j = 1 := by
  unfold cellAt at h ⊢
  rw [fillGrid_getD]
  exact fillRow_keeps_one _ j h

/-- A row skipped by the fill pass (cell sum below 2) is returned unchanged. -/
theorem fillGrid_skip (g : Grid) (i : ℕ) (h : (g.getD i []).sum < 2) :
    (fillGrid g).getD i [] = g.getD i [] := by
  rw [fillGrid_getD]
  unfold fillRow
  rw [if_pos h]

/-- The grid produced by the contour pass has exactly the dimensions the
source allocates on lines 47-50. -/
theorem contour_grid_dims {points : List (ℚ × ℚ)} {sres : ℚ} {b : ℕ} {fuel : ℕ}
    {cg : Grid} (h : contour_grid points sres b fuel = some cg) :
    (cg.length : ℤ) = nRows points sres b ∧
      ∀ row ∈ cg, (row.length : ℤ) = nCols points sres b := by
  cases points with
  | nil => simp [contour_grid] at h
  | cons p rest =>
    simp only [contour_grid] at h
    split at h
    · cases h
    · split at h
      · cases h
      · rename_i hneg
        push_neg at hneg
        obtain ⟨hr0, hc0⟩ := hneg
        have hpres := contourAll_preserve
          (P := fun g => g.length = (nRows (p :: rest) sres b).toNat ∧
            ∀ row ∈ g, row.length = (nCols (p :: rest) sres b).toNat)
          (fun g i j g2 hg hs => setCell_dims hg.1 hg.2 hs)
          fuel sres EPS b (xMin (p :: rest)) (yMax (p :: rest)) (p :: rest) _ cg
          ⟨List.length_replicate _ _, fun row hr => by
            rw [List.eq_of_mem_replicate hr]; exact List.length_replicate _ _⟩ h
        obtain ⟨hlen, hrow⟩ := hpres
        constructor
        · rw [hlen, Int.toNat_of_nonneg (by omega)]
        · intro row hr
          rw [hrow row hr, Int.toNat_of_nonneg (by omega)]

/-- Every cell of the contour grid is 0 or 1: the raster starts as zeros and
the contour pass writes only the value 1. -/
theorem contour_grid_cells01 {points : List (ℚ × ℚ)} {sres : ℚ} {b : ℕ} {fuel : ℕ}
    {cg : Grid} (h : contour_grid points sres b fuel = some cg) :
    ∀ row ∈ cg, ∀ v ∈ row, v = 0 ∨ v = 1 := by
  cases points with
  | nil => simp [contour_grid] at h
  | cons p rest =>
    simp only [contour_grid] at h
    split at h
    · cases h
    · split at h
      · cases h
      · refine contourAll_preserve
          (P := fun g => ∀ row ∈ g, ∀ v ∈ row, v = 0 ∨ v = 1)
          (fun g i j g2 hg hs => setCell_cells01 hg hs)
          fuel sres EPS b (xMin (p :: rest)) (yMax (p :: rest)) (p :: rest) _ cg ?_ h
        intro row hr v hv
        left
        rw [List.eq_of_mem_replicate hr] at hv
        exact List.eq_of_mem_replicate hv

/-! Concrete evaluations shared by several results: the closed unit-square
ring of the spec's concrete scenario, at resolution 1 and buffer 0. -/

set_option maxHeartbeats 4000000 in
/-- The contour pass on the closed square flags the two vertical edges. -/
theorem square_contour_eval :
    contour_grid [(0, 0), (2, 0), (2, 2), (0, 2), (0, 0)] 1 0 9 =
      some [[1, 0, 1], [1, 0, 1], [1, 0, 1]] := by
  norm_num [contour_grid, contourAll, flagEdge,
    walkEdge, setCell, npIndex, pyround, EPS, nRows, nCols, xMin, xMax, yMin, yMax,
    listMin, listMax, xsOf, ysOf]
  decide

/-- The fill pass turns the flagged square contour into the full mask. -/
theorem square_uncropped_eval :
    rasterise_uncropped [(0, 0), (2, 0), (2, 2), (0, 2), (0, 0)] 1 0 9 =
      some [[1, 1, 1], [1, 1, 1], [1, 1, 1]] := by
  rw [rasterise_uncropped, square_contour_eval]
  decide

/-- The full rasteriser on the closed square at buffer 0. -/
theorem square_raster_eval :
    rasterise_polygon [(0, 0), (2, 0), (2, 2), (0, 2), (0, 0)] 1 0 9 =
      some [[1, 1, 1], [1, 1, 1], [1, 1, 1]] := by
  simp only [rasterise_polygon, Int.natAbs_zero, square_uncropped_eval, Option.map_some']
  rfl

/-! The claims. -/

/-- C1: rasterise_polygon applied to the closed ring of the 2 by 2 square at
resolution 1 and buffer 0 returns the 3 by 3 mask in which every cell is 1. -/
theorem C1_unit_square :
    rasterise_polygon [(0, 0), (2, 0), (2, 2), (0, 2), (0, 0)] 1 0 9 =
      some [[1, 1, 1], [1, 1, 1], [1, 1, 1]] :=
  square_raster_eval

/-- C2: whenever the rasteriser completes, the mask before any buffer
post-processing has round((y_max - y_min)/sres) + 1 + 2*buffer rows and
round((x_max - x_min)/sres) + 1 + 2*buffer columns, the extrema taken over
all input vertices. -/
theorem C2_mask_dimensions (points : List (ℚ × ℚ)) (sres : ℚ) (b : ℕ) (fuel : ℕ)
    (m : Grid)
    (hdist : ∃ p1 ∈ points, ∃ p2 ∈ points, ∃ p3 ∈ points,
      p1 ≠ p2 ∧ p1 ≠ p3 ∧ p2 ≠ p3)
    (hres : 0 < sres)
    (hm : rasterise_uncropped points sres b fuel = some m) :
    (m.length : ℤ) = pyround ((yMax points - yMin points) / sres) + 1 + 2 * b ∧
      ∀ row ∈ m, (row.length : ℤ) =
        pyround ((xMax points - xMin points) / sres) + 1 + 2 * b := by
  unfold rasterise_uncropped at hm
  cases hc : contour_grid points sres b fuel with
  | none => rw [hc] at hm; cases hm
  | some cg =>
    rw [hc] at hm
    simp only [Option.map_some'] at hm
    cases hm
    obtain ⟨h1, h2⟩ := contour_grid_dims hc
    constructor
    · rw [fillGrid_length, h1, nRows]
    · intro row hr
      rcases List.mem_map.mp hr with ⟨row0, hmem, heq⟩
      rw [← heq, fillRow_length]
      rw [h2 row0 hmem, nCols]

/-- Witness for C2 at the closed unit square, resolution 1, buffer 0. -/
theorem C2_mask_dimensions_witness :
    ((∃ p1 ∈ [((0 : ℚ), (0 : ℚ)), (2, 0), (2, 2), (0, 2), (0, 0)],
        ∃ p2 ∈ [((0 : ℚ), (0 : ℚ)), (2, 0), (2, 2), (0, 2), (0, 0)],
          ∃ p3 ∈ [((0 : ℚ), (0 : ℚ)), (2, 0), (2, 2), (0, 2), (0, 0)],
            p1 ≠ p2 ∧ p1 ≠ p3 ∧ p2 ≠ p3) ∧
      (0 : ℚ) < 1 ∧
      rasterise_uncropped [(0, 0), (2, 0), (2, 2), (0, 2), (0, 0)] 1 0 9 =
        some [[1, 1, 1], [1, 1, 1], [1, 1, 1]]) ∧
    ((([[1, 1, 1], [1, 1, 1], [1, 1, 1]] : Grid).length : ℤ) =
        pyround ((yMax [(0, 0), (2, 0), (2, 2), (0, 2), (0, 0)] -
          yMin [(0, 0), (2, 0), (2, 2), (0, 2), (0, 0)]) / 1) + 1 + 2 * (0 : ℕ) ∧
      ∀ row ∈ ([[1, 1, 1], [1, 1, 1], [1, 1, 1]] : Grid), (row.length : ℤ) =
        pyround ((xMax [(0, 0), (2, 0), (2, 2), (0, 2), (0, 0)] -
          xMin [(0, 0), (2, 0), (2, 2), (0, 2), (0, 0)]) / 1) + 1 + 2 * (0 : ℕ)) := by
  have hd : ∃ p1 ∈ [((0 : ℚ), (0 : ℚ)), (2, 0), (2, 2), (0, 2), (0, 0)],
      ∃ p2 ∈ [((0 : ℚ), (0 : ℚ)), (2, 0), (2, 2), (0, 2), (0, 0)],
        ∃ p3 ∈ [((0 : ℚ), (0 : ℚ)), (2, 0), (2, 2), (0, 2), (0, 0)],
          p1 ≠ p2 ∧ p1 ≠ p3 ∧ p2 ≠ p3 := by
    refine ⟨(0, 0), by norm_num, (2, 0), by norm_num, (2, 2), by norm_num, ?_, ?_, ?_⟩ <;>
      norm_num [Prod.ext_iff]
  have hm : rasterise_uncropped [(0, 0), (2, 0), (2, 2), (0, 2), (0, 0)] 1 0 9 =
      some [[1, 1, 1], [1, 1, 1], [1, 1, 1]] := square_uncropped_eval
  exact ⟨⟨hd, by norm_num, hm⟩,
    C2_mask_dimensions [(0, 0), (2, 0), (2, 2), (0, 2), (0, 0)] 1 0 9
      [[1, 1, 1], [1, 1, 1], [1, 1, 1]] hd (by norm_num) hm⟩

/-- C9: the sign of the buffer argument is discarded at entry (line 37 takes
the absolute value), so rasterise_polygon returns the same mask for b and for
the absolute value of b, on every input. -/
theorem C9_buffer_abs (points : List (ℚ × ℚ)) (sres : ℚ) (buffer : ℤ) (fuel : ℕ) :
    rasterise_polygon points sres buffer fuel =
      rasterise_polygon points sres |buffer| fuel := by
  unfold rasterise_polygon
  rw [Int.natAbs_abs]

/-- C10: with buffer 0 the returned mask is the fill of the contour grid;
every cell of it is 0 or 1, the fill pass only sets cells (every contour 1
survives), and a row with fewer than two flagged cells is returned with its
contour flags unchanged. -/
theorem C10_fill_monotone (points : List (ℚ × ℚ)) (sres : ℚ) (fuel : ℕ) (cg m : Grid)
    (hc : contour_grid points sres 0 fuel = some cg)
    (hm : rasterise_polygon points sres 0 fuel = some m) :
    m = fillGrid cg ∧
    (∀ row ∈ m, ∀ v ∈ row, v = 0 ∨ v = 1) ∧
    (∀ i j, cellAt cg i j = 1 → cellAt m i j = 1) ∧
    (∀ i, (cg.getD i []).sum < 2 → m.getD i [] = cg.getD i []) := by
  have hmeq : m = fillGrid cg := by
    simp only [rasterise_polygon, Int.natAbs_zero, rasterise_uncropped, hc,
      Option.map_some', reduceIte, Option.some.injEq] at hm
    exact hm.symm
  subst hmeq
  exact ⟨rfl, fillGrid_cells01 (contour_grid_cells01 hc),
    fun i j => fillGrid_keeps_one cg i j,
    fun i => fillGrid_skip cg i⟩

/-- Witness for C10 at the closed unit square. -/
theorem C10_fill_monotone_witness :
    (contour_grid [(0, 0), (2, 0), (2, 2), (0, 2), (0, 0)] 1 0 9 =
        some [[1, 0, 1], [1, 0, 1], [1, 0, 1]] ∧
      rasterise_polygon [(0, 0), (2, 0), (2, 2), (0, 2), (0, 0)] 1 0 9 =
        some [[1, 1, 1], [1, 1, 1], [1, 1, 1]]) ∧
    (([[1, 1, 1], [1, 1, 1], [1, 1, 1]] : Grid) =
        fillGrid [[1, 0, 1], [1, 0, 1], [1, 0, 1]] ∧
      (∀ row ∈ ([[1, 1, 1], [1, 1, 1], [1, 1, 1]] : Grid), ∀ v ∈ row, v = 0 ∨ v = 1) ∧
      (∀ i j, cellAt [[1, 0, 1], [1, 0, 1], [1, 0, 1]] i j = 1 →
        cellAt [[1, 1, 1], [1, 1, 1], [1, 1, 1]] i j = 1) ∧
      (∀ i, (([[1, 0, 1], [1, 0, 1], [1, 0, 1]] : Grid).getD i []).sum < 2 →
        ([[1, 1, 1], [1, 1, 1], [1, 1, 1]] : Grid).getD i [] =
          ([[1, 0, 1], [1, 0, 1], [1, 0, 1]] : Grid).getD i [])) :=
  ⟨⟨square_contour_eval, square_raster_eval⟩,
    C10_fill_monotone [(0, 0), (2, 0), (2, 2), (0, 2), (0, 0)] 1 9
      [[1, 0, 1], [1, 0, 1], [1, 0, 1]] [[1, 1, 1], [1, 1, 1], [1, 1, 1]]
      square_contour_eval square_raster_eval⟩

/-- C8: ij2xy with a pixel origin outside ul, ur, lr, ll and c fails with the
unknown-anchor error (the raise on line 446) and never returns a coordinate;
in particular it does not fall back to the upper-left shift. -/
theorem C8_unknown_anchor (i j : ℚ) (gt : GeoTransform) (origin : String)
    (h : origin ≠ "ul" ∧ origin ≠ "ur" ∧ origin ≠ "lr" ∧ origin ≠ "ll" ∧ origin ≠ "c") :
    ij2xy i j gt origin = Except.error GeoError.unknownAnchor := by
  obtain ⟨h1, h2, h3, h4, h5⟩ := h
  simp [ij2xy, h1, h2, h3, h4, h5]

/-- Witness for C8 at the unknown origin string xy. -/
theorem C8_unknown_anchor_witness :
    ("xy" ≠ "ul" ∧ "xy" ≠ "ur" ∧ "xy" ≠ "lr" ∧ "xy" ≠ "ll" ∧ "xy" ≠ "c") ∧
    ij2xy 0 0 ⟨0, 1, 0, 0, 0, 1⟩ "xy" = Except.error GeoError.unknownAnchor :=
  ⟨by decide, C8_unknown_anchor 0 0 ⟨0, 1, 0, 0, 0, 1⟩ "xy" (by decide)⟩

/-- C5: for a geotransform with both rotation terms zero and nonzero pixel
sizes, the inverse map xy2ij applied to the output of the forward map ij2xy at
the upper-left anchor recovers the integer pixel indexes exactly. -/
theorem C5_roundtrip_ul (gt : GeoTransform) (i j : ℤ) (x y : ℚ)
    (h2 : gt.gt2 = 0) (h4 : gt.gt4 = 0) (h1 : gt.gt1 ≠ 0) (h5 : gt.gt5 ≠ 0)
    (hxy : ij2xy (i : ℚ) (j : ℚ) gt "ul" = Except.ok (x, y)) :
    xy2ij x y gt = (i, j) := by
  have hul : ij2xy (i : ℚ) (j : ℚ) gt "ul" =
      Except.ok (gt.gt0 + ((i : ℚ) + 0) * gt.gt1 + ((j : ℚ) + 0) * gt.gt2,
                 gt.gt3 + ((i : ℚ) + 0) * gt.gt4 + ((j : ℚ) + 0) * gt.gt5) := rfl
  rw [hul] at hxy
  have hpair := Except.ok.inj hxy
  have hx : gt.gt0 + ((i : ℚ) + 0) * gt.gt1 + ((j : ℚ) + 0) * gt.gt2 = x :=
    congrArg Prod.fst hpair
  have hy : gt.gt3 + ((i : ℚ) + 0) * gt.gt4 + ((j : ℚ) + 0) * gt.gt5 = y :=
    congrArg Prod.snd hpair
  have hden : gt.gt2 * gt.gt4 - gt.gt1 * gt.gt5 ≠ 0 := by
    rw [h2, h4]
    simpa using mul_ne_zero h1 h5
  unfold xy2ij
  have harg1 : -1 * (gt.gt2 * gt.gt3 - gt.gt0 * gt.gt5 + gt.gt5 * x - gt.gt2 * y) /
      (gt.gt2 * gt.gt4 - gt.gt1 * gt.gt5) = (i : ℚ) := by
    rw [div_eq_iff hden, ← hx, ← hy, h2, h4]
    ring
  have harg2 : -1 * (-1 * gt.gt1 * gt.gt3 + gt.gt0 * gt.gt4 - gt.gt4 * x + gt.gt1 * y) /
      (gt.gt2 * gt.gt4 - gt.gt1 * gt.gt5) = (j : ℚ) := by
    rw [div_eq_iff hden, ← hx, ← hy, h2, h4]
    ring
  rw [harg1, harg2, pyround_intCast, pyround_intCast]

/-- Witness for C5 at the spec's concrete forward example. -/
theorem C5_roundtrip_ul_witness :
    ij2xy ((1 : ℤ) : ℚ) ((1 : ℤ) : ℚ) ⟨100, 10, 0, 200, 0, 10⟩ "ul" =
      Except.ok (110, 210) ∧
    xy2ij 110 210 ⟨100, 10, 0, 200, 0, 10⟩ = (1, 1) := by
  have h : ij2xy ((1 : ℤ) : ℚ) ((1 : ℤ) : ℚ) ⟨100, 10, 0, 200, 0, 10⟩ "ul" =
      Except.ok (110, 210) := by
    norm_num [ij2xy]
  exact ⟨h, C5_roundtrip_ul ⟨100, 10, 0, 200, 0, 10⟩ 1 1 110 210 rfl rfl
    (by norm_num) (by norm_num) h⟩

/-- Evaluation shared by the C7 results: a purely collinear vertex list is
rasterised without any failure, yielding a degenerate one-row zero mask. -/
theorem collinear_raster_eval :
    rasterise_polygon [(0, 0), (1, 0), (2, 0)] 1 0 1 = some [[0, 0, 0]] := by
  norm_num [rasterise_polygon, rasterise_uncropped, contour_grid, contourAll, flagEdge,
    walkEdge, setCell, npIndex, pyround, EPS, nRows, nCols, xMin, xMax, yMin, yMax,
    listMin, listMax, xsOf, ysOf, fillGrid, fillRow, fillRowGo]
  try decide

/-- C7 counterexample: on three collinear vertices the claim demands an
InvalidPolygon failure, but rasterise_polygon returns a mask and no failure
value at all. -/
theorem C7_counterexample :
    rasterise_polygon [(0, 0), (1, 0), (2, 0)] 1 0 1 = some [[0, 0, 0]] ∧
    rasterise_polygon [(0, 0), (1, 0), (2, 0)] 1 0 1 ≠ none := by
  refine ⟨collinear_raster_eval, ?_⟩
  rw [collinear_raster_eval]
  exact fun hh => Option.noConfusion hh

/-- C7 amended: rasterise_polygon performs no input validation. A collinear
vertex list is rasterised normally into a degenerate mask; a two-vertex list
is likewise accepted; a zero resolution is not rejected with a dedicated
failure value but crashes in the division on line 47 (modelled as none). -/
theorem C7_no_validation :
    rasterise_polygon [(0, 0), (1, 0), (2, 0)] 1 0 1 = some [[0, 0, 0]] ∧
    rasterise_polygon [(0, 0), (1, 1)] 1 0 5 = some [[0, 1], [1, 0]] ∧
    rasterise_polygon [(0, 0), (1, 0), (2, 0)] 0 0 1 = none := by
  refine ⟨collinear_raster_eval, ?_, ?_⟩
  · norm_num [rasterise_polygon, rasterise_uncropped, contour_grid, contourAll, flagEdge,
      walkEdge, setCell, npIndex, pyround, EPS, nRows, nCols, xMin, xMax, yMin, yMax,
      listMin, listMax, xsOf, ysOf, fillGrid, fillRow, fillRowGo]
    try decide
  · norm_num [rasterise_polygon, rasterise_uncropped, contour_grid]

/-- Appending one vertex to a nonempty list appends exactly one consecutive
pair, from the previous last vertex to the appended one. -/
theorem zip_pairs_append (p q : ℚ × ℚ) (rest : List (ℚ × ℚ)) :
    (p :: (rest ++ [q])).zip (rest ++ [q]) =
      ((p :: rest).zip rest) ++ [((p :: rest).getLastD p, q)] := by
  induction rest generalizing p with
  | nil => rfl
  | cons r rs ih =>
    have ih2 := ih r
    simp only [List.cons_append, List.zip_cons_cons, List.getLastD_cons] at ih2 ⊢
    exact congrArg (List.cons (p, r)) ih2

/-- The contour pass of a ring extended by one vertex is the contour pass of
the ring followed by the single new consecutive edge. -/
theorem contourAll_append (fuel : ℕ) (sres eps : ℚ) (b : ℕ) (xm ym : ℚ)
    (p q : ℚ × ℚ) (rest : List (ℚ × ℚ)) (g : Grid) :
    contourAll fuel sres eps b xm ym ((p :: rest) ++ [q]) g =
      (contourAll fuel sres eps b xm ym (p :: rest) g) >>=
        flagEdge fuel sres eps b xm ym ((p :: rest).getLastD p) q := by
  unfold contourAll
  simp only [List.cons_append, List.tail_cons]
  rw [zip_pairs_append, List.foldlM_append]
  simp only [List.foldlM_cons, List.foldlM_nil, bind_pure]

set_option maxHeartbeats 4000000 in
/-- C6: the contour pass takes edges only between consecutive vertex pairs and
never wraps from the last vertex back to the first: extending a ring by one
vertex adds exactly that one new edge, and on the open square ring, whose
closing left edge is never rasterised, only the right-hand column is flagged,
every row's fill is skipped, and the mask is the filled open polyline. -/
theorem C6_no_wrap :
    (∀ (fuel : ℕ) (sres eps : ℚ) (b : ℕ) (xm ym : ℚ) (p q : ℚ × ℚ)
        (rest : List (ℚ × ℚ)) (g : Grid),
      contourAll fuel sres eps b xm ym ((p :: rest) ++ [q]) g =
        (contourAll fuel sres eps b xm ym (p :: rest) g) >>=
          flagEdge fuel sres eps b xm ym ((p :: rest).getLastD p) q) ∧
    rasterise_polygon [(0, 0), (2, 0), (2, 2), (0, 2)] 1 0 9 =
      some [[0, 0, 1], [0, 0, 1], [0, 0, 1]] := by
  constructor
  · exact contourAll_append
  · norm_num [rasterise_polygon, rasterise_uncropped, contour_grid, contourAll, flagEdge,
      walkEdge, setCell, npIndex, pyround, EPS, nRows, nCols, xMin, xMax, yMin, yMax,
      listMin, listMax, xsOf, ysOf, fillGrid, fillRow, fillRowGo]
    try decide

/-- On the diverging edge of C3, the walk's exit test is never satisfied: the
iterator starts at 0 and steps by 1, so it is always a natural number, and no
natural number lies within EPS of 5/2 = y_end + sres. The walk therefore
fails for every fuel bound, either running out of fuel or stepping outside
the raster. -/
theorem walkC3_none (fuel : ℕ) : ∀ (n : ℕ) (g : Grid),
    walkEdge 1 EPS (some (-(3 / 4))) 0 2 (3 / 2) (3 / 2) 0 0 fuel (n : ℚ) g = none := by
  induction fuel with
  | zero => intro n g; simp [walkEdge]
  | succ fuel ih =>
    intro n g
    simp only [walkEdge]
    have hcond : ¬ |(n : ℚ) - 3 / 2 - 1| < EPS := by
      rw [EPS]
      rcases Nat.lt_or_ge n 3 with h | h
      · have h2 : (n : ℚ) ≤ 2 := by exact_mod_cast Nat.lt_succ_iff.mp h
        rw [abs_of_nonpos (by linarith)]
        linarith
      · have h3 : (3 : ℚ) ≤ (n : ℚ) := by exact_mod_cast h
        rw [abs_of_nonneg (by linarith)]
        linarith
    rw [if_neg hcond]
    split
    · rfl
    · rename_i g2 heq
      have hcast : (n : ℚ) + 1 = ((n + 1 : ℕ) : ℚ) := by push_cast; ring
      rw [hcast]
      exact ih (n + 1) g2

/-- The walk of the diverging edge fails from its actual start y = 0. -/
theorem walkC3_none0 (fuel : ℕ) (g : Grid) :
    walkEdge 1 EPS (some (-(3 / 4))) 0 2 (3 / 2) (3 / 2) 0 0 fuel 0 g = none := by
  have h := walkC3_none fuel 0 g
  simpa using h

/-- C3: rasterise_polygon on the triangle ring (0,0), (2,0), (0,3/2), (0,0)
at resolution 1 never completes, whatever iteration bound the walk is given:
the edge from (2,0) to (0,3/2) has vertical extent 3/2, not a multiple of the
resolution, its exit test abs (y - y_end - sres) < EPS never becomes true, and
the walk runs unboundedly (in the source it walks past the raster and the
write raises IndexError instead of rasterise returning a mask). -/
theorem C3_walk_divergence (fuel : ℕ) :
    rasterise_polygon [(0, 0), (2, 0), (0, 3 / 2), (0, 0)] 1 0 fuel = none := by
  have hcg : contour_grid [(0, 0), (2, 0), (0, 3 / 2), (0, 0)] 1 0 fuel = none := by
    norm_num [contour_grid, contourAll, flagEdge, nRows, nCols, xMin, xMax,
      yMin, yMax, listMin, listMax, xsOf, ysOf, pyround]
    rw [walkC3_none0]
    exact fun a ha => Option.noConfusion ha
  simp only [rasterise_polygon, rasterise_uncropped, hcg, Option.map_none', Int.natAbs_zero]

/-- C4 counterexample: at origin (0,0), angle 90 degrees and unit pixel
sizes, the constructed geotransform differs from the one the claim describes,
because the source rounds after converting to radians (alpha becomes the
integer 2) while the claim rounds the degree value before converting (alpha
would be pi/2, making the first cosine term vanish). -/
theorem C4_counterexample :
    construct_geotransform (0, 0) 90 (1, 1) true ≠
      construct_geotransform_claimed (0, 0) 90 (1, 1) true := by
  have hpi3 : (3 : ℝ) < Real.pi := Real.pi_gt_three
  have hpi4 : Real.pi < 3.15 := Real.pi_lt_315
  have hround : round ((90 : ℝ) * Real.pi / 180) = 2 := by
    have h12 : (90 : ℝ) * Real.pi / 180 = Real.pi / 2 := by ring
    rw [h12, round_eq]
    rw [Int.floor_eq_iff]
    constructor
    · push_cast
      linarith
    · push_cast
      linarith
  have hround90 : round (90 : ℝ) = 90 := by
    rw [show (90 : ℝ) = ((90 : ℤ) : ℝ) by norm_num, round_intCast]
  have hcos2 : Real.cos 2 < 0 := by
    apply Real.cos_neg_of_pi_div_two_lt_of_lt
    · linarith
    · linarith
  intro h
  have hc := congrArg (fun t => t.2.1) h
  simp only [construct_geotransform, construct_geotransform_claimed,
    eq_self_iff_true, if_true] at hc
  rw [hround, hround90] at hc
  have h90 : ((90 : ℤ) : ℝ) * Real.pi / 180 = Real.pi / 2 := by
    push_cast
    ring
  rw [h90] at hc
  rw [Real.cos_pi_div_two] at hc
  norm_num at hc
  linarith

/-- C4 amended: when deg is true the construction converts the angle to
radians first and then rounds that radian value to the nearest integer, so
the degree-mode output equals the radian-mode output at the rounded radian
value; when deg is false the angle is used unrounded. -/
theorem C4_round_after_radians (origin : ℝ × ℝ) (rot : ℝ) (px : ℝ × ℝ) :
    construct_geotransform origin rot px true =
      construct_geotransform origin ((round (rot * Real.pi / 180) : ℤ) : ℝ) px false := by
  simp [construct_geotransform]

end Geospade
